import Mathlib

/-!
Verification of the capture-and-sanitize bridge of `src/main.py`.

The repository contributes three reproducible pieces of logic:

* `strip_ansi_codes` (main.py lines 77-80): removes every non-overlapping,
  leftmost match of the regular expression `ESC [ P* I* F` (P in 0x30-0x3F, I in 0x20-0x2F, F in 0x40-0x7E) from a
  text, exactly as Python's `re.sub(pattern, '', text)` does.
* `get_agent_response` (main.py lines 83-96): redirects the process standard
  output to a fresh capture buffer, runs the (opaque, possibly failing) agent
  call, restores the original stream in a `finally` block, and returns the
  sanitized captured text.
* `search` (main.py lines 137-168): the POST /search dispatch handler, which
  runs the bridge, maps an empty/whitespace-only result to a fixed fallback
  message, maps any exception to "An error occurred: <message>", and embeds
  the result verbatim in a fixed HTML page with HTTP status 200.

The stateful parts (the process-wide `sys.stdout`, the capture buffer, the
exception flow) are embedded as explicit state passing over `SysState`; an
agent call is an arbitrary function from a prompt and a state to a new state
together with success or an error message.
-/

namespace FinancialAgent

/-- The escape character `\x1B`, the first character of an ANSI escape
sequence. -/
def escChar : Char := '\x1B'

/-- Characters matched by the regex class `[0-?]` (CSI parameter bytes,
code points 0x30-0x3F). -/
def isParamByte (c : Char) : Bool := 0x30 ≤ c.toNat && c.toNat ≤ 0x3F

/-- Characters matched by the regex class of CSI intermediate bytes (
code points 0x20-0x2F). -/
def isIntermediateByte (c : Char) : Bool := 0x20 ≤ c.toNat && c.toNat ≤ 0x2F

/-- Characters matched by the regex class `[@-~]` (CSI final bytes,
code points 0x40-0x7E). -/
def isFinalByte (c : Char) : Bool := 0x40 ≤ c.toNat && c.toNat ≤ 0x7E

/-- Attempt to match `P* I* F` at the front of `rest`; on success
return the remainder of the list after the match.  Because the three
character classes are pairwise disjoint, the greedy, non-backtracking match
computed here coincides with Python's backtracking regex semantics: giving
back a parameter or intermediate byte can never let the later classes
succeed. -/
def matchTail (rest : List Char) : Option (List Char) :=
  match (rest.dropWhile isParamByte).dropWhile isIntermediateByte with
  | c3 :: rest3 => if isFinalByte c3 then some rest3 else none
  | [] => none

/-- Attempt to match the full regex `ESC [ P* I* F` (P in 0x30-0x3F, I in 0x20-0x2F, F in 0x40-0x7E) at the front of
the list; on success return the remainder after the match. -/
def matchAnsi : List Char → Option (List Char)
  | c1 :: c2 :: rest => if c1 = escChar ∧ c2 = '[' then matchTail rest else none
  | _ => none

/-- Fuel-indexed worker for `re.sub(pattern, '', text)`: scan left to right;
at each position remove the (greedy) match if one starts there, otherwise
keep the character and move one position right.  `fuel` only serves to make
the recursion structural; any `fuel ≥ length` computes the true result. -/
def stripAux : Nat → List Char → List Char
  | _, [] => []
  | 0, l => l
  | fuel + 1, c :: cs =>
    match matchAnsi (c :: cs) with
    | some rest => stripAux fuel rest
    | none => c :: stripAux fuel cs

/-- The sanitizer on character lists: every leftmost non-overlapping match of
`ESC [ P* I* F` (P in 0x30-0x3F, I in 0x20-0x2F, F in 0x40-0x7E) is deleted, exactly as `ansi_escape.sub('', text)`
does in `strip_ansi_codes`. -/
def stripAnsiCodes (l : List Char) : List Char := stripAux l.length l

/-- The sanitizer `strip_ansi_codes` of main.py lines 77-80, on strings. -/
def strip_ansi_codes (text : String) : String := String.mk (stripAnsiCodes text.data)

/-- Does the text contain a match of the escape-sequence regex anywhere, i.e.
a substring of the escape-sequence shape? -/
def containsAnsi : List Char → Bool
  | [] => false
  | c :: cs => (matchAnsi (c :: cs)).isSome || containsAnsi cs

/-- Repeated application of the single-pass sanitizer, with a fuel bound on
the number of passes.  One pass of `re.sub` can juxtapose remnants of two
overlapping partial sequences into a new match, so a single pass does not
guarantee an escape-free result; iteration does. -/
def stripFuel : Nat → List Char → List Char
  | 0, l => l
  | n + 1, l => if containsAnsi l then stripFuel n (stripAnsiCodes l) else l

/-! ### State model for the capture-and-sanitize bridge -/

/-- Identifier of an output stream: the original `sys.stdout` and each
`io.StringIO()` capture buffer get distinct identifiers. -/
abbrev StreamId := Nat

/-- Observable interpreter state for the bridge: which stream `sys.stdout`
currently designates, a supply of fresh buffer identifiers, and the ordered
log of every write performed so far, tagged with the stream it went to. -/
structure SysState where
  stdout : StreamId
  nextId : StreamId
  log : List (StreamId × String)
deriving DecidableEq

/-- A write through the interpreter: `print` appends text to whatever stream
`sys.stdout` currently designates. -/
def writeStdout (s : String) (st : SysState) : SysState :=
  { st with log := st.log ++ [(st.stdout, s)] }

/-- The accumulated contents of one stream: `capture.getvalue()` concatenates,
in order, every write that went to that buffer. -/
def getvalue (id : StreamId) (st : SysState) : String :=
  String.join ((st.log.filter (fun e => e.1 == id)).map (fun e => e.2))

/-- An opaque agent call (`multi_ai_agent.print_response`): given the prompt
and the current state it produces a new state (it may write to the current
stdout, reassign streams, and so on) and either returns normally or raises an
exception carrying a message. -/
def AgentProc : Type := String → SysState → SysState × Except String Unit

/-- The bridge `get_agent_response` of main.py lines 83-96: allocate a fresh
capture buffer, save `sys.stdout`, point `sys.stdout` at the buffer, run the
agent call, and in the `finally` block restore the saved stream whether the
call returned or raised.  On normal return the captured text is read and
sanitized; on an exception the error propagates (as the `Except.error`
component) after the stream has been restored. -/
def get_agent_response (agent : AgentProc) (prompt : String) (st : SysState) :
    SysState × Except String String :=
  let capture := st.nextId
  let old_stdout := st.stdout
  let st1 : SysState := { st with stdout := capture, nextId := st.nextId + 1 }
  let res := agent prompt st1
  let st3 : SysState := { res.1 with stdout := old_stdout }
  match res.2 with
  | Except.ok _ =>
    let raw_output := getvalue capture st3
    let clean_output := strip_ansi_codes raw_output
    (st3, Except.ok clean_output)
  | Except.error e => (st3, Except.error e)

/-- Python whitespace, as recognised by `str.strip()` (the characters whose
Unicode whitespace property Python honours: 0x09-0x0D, 0x1C-0x1F, space,
0x85, 0xA0, 0x1680, 0x2000-0x200A, 0x2028, 0x2029, 0x202F, 0x205F, 0x3000). -/
def isPySpace (c : Char) : Bool :=
  (0x09 ≤ c.toNat && c.toNat ≤ 0x0D) || (0x1C ≤ c.toNat && c.toNat ≤ 0x1F) ||
  c.toNat == 0x20 || c.toNat == 0x85 || c.toNat == 0xA0 || c.toNat == 0x1680 ||
  (0x2000 ≤ c.toNat && c.toNat ≤ 0x200A) || c.toNat == 0x2028 || c.toNat == 0x2029 ||
  c.toNat == 0x202F || c.toNat == 0x205F || c.toNat == 0x3000

/-- Python `result.strip()`: remove leading and trailing whitespace. -/
def pyStrip (s : String) : String :=
  String.mk ((s.data.dropWhile isPySpace).reverse.dropWhile isPySpace).reverse

/-- An HTTP response: FastAPI's `HTMLResponse(content=...)` with the default
success status code. -/
structure Response where
  status : Nat
  body : String
deriving DecidableEq

/-- The fallback text of main.py line 143. -/
def fallbackMessage : String := "No response received from the agent."

/-- The literal HTML of the search results page before the interpolation
point of `result` (the f-string of main.py lines 147-162, braces written
as escapes). -/
def htmlPre : String := "\n    <!DOCTYPE html>\n    <html>\n    <head>\n        <title>Search Results</title>\n        <style>\n            body \x7b font-family: Arial, sans-serif; margin: 40px; background-color: #f4f7f6; color: #333; \x7d\n            h1 \x7b color: #2c3e50; text-align: center; margin-bottom: 30px; \x7d\n            .result \x7b margin-top: 30px; padding: 25px; border: 1px solid #e0e0e0; border-radius: 10px; background-color: #ffffff; box-shadow: 0 4px 8px rgba(0,0,0,0.05); white-space: pre-wrap; font-family: \x27Courier New\x27, Courier, monospace; font-size: 14px; line-height: 1.6; \x7d\n            a \x7b display: block; text-align: center; margin-top: 20px; color: #007bff; text-decoration: none; transition: color 0.3s ease; \x7d\n            a:hover \x7b color: #0056b3; \x7d\n        </style>\n    </head>\n    <body>\n        <h1>Search Results</h1>\n        <div class=\"result\">"

/-- The literal HTML of the search results page after the interpolation
point of `result`. -/
def htmlSuf : String := "</div>\n        <br>\n        <a href=\"/\">&#8592; Back to Search</a>\n    </body>\n    </html>\n    "

/-- The f-string `html_content` of main.py lines 147-167: the result text is
interpolated verbatim into the page, with no HTML escaping of any kind. -/
def html_content (result : String) : String := htmlPre ++ result ++ htmlSuf

/-- The POST /search handler of main.py lines 137-168: run the bridge (the
executor offload returns its result to the awaiting handler, modelled as a
direct call), replace an empty or whitespace-only result with the fallback
message, turn any exception into the text `An error occurred: <message>`,
and answer HTTP 200 with the result embedded in the fixed HTML page.  The
handler itself never fails. -/
def search (agent : AgentProc) (query : String) (st : SysState) :
    SysState × Response :=
  let out := get_agent_response agent query st
  let result : String :=
    match out.2 with
    | Except.ok res => if (pyStrip res).isEmpty then fallbackMessage else res
    | Except.error e => "An error occurred: " ++ e
  (out.1, { status := 200, body := html_content result })

/-! ### Concrete stub agents and an initial state, used by the witnesses -/

/-- An initial state: `sys.stdout` is stream 0, no writes yet, fresh buffer
identifiers start at 1. -/
def initState : SysState := { stdout := 0, nextId := 1, log := [] }

/-- Stub agent operation that writes an escape-free answer and returns. -/
def stubAgentResult42 : AgentProc :=
  fun _ st => (writeStdout "Result: 42" st, Except.ok ())

/-- Stub agent operation that writes only whitespace. -/
def stubAgentWhitespace : AgentProc :=
  fun _ st => (writeStdout "   \n" st, Except.ok ())

/-- Fault-injecting stub operation that raises before writing anything. -/
def stubAgentRaises : AgentProc :=
  fun _ st => (st, Except.error "timeout")

/-- A text in which an escape-free fragment of a malformed sequence abuts a
well-formed sequence: removing the inner match juxtaposes the remnants into
a new well-formed escape sequence. -/
def juxtaposedInput : String := "\x1B[31\x1B[31mm"

/-! ### Helper lemmas -/

theorem getvalue_set_stdout (id x : StreamId) (st : SysState) :
    getvalue id { st with stdout := x } = getvalue id st := rfl

/-! ### Basic facts about the matcher -/

theorem matchTail_length {rest r : List Char} (h : matchTail rest = some r) :
    r.length + 1 ≤ rest.length := by
  unfold matchTail at h
  split at h
  next c3 rest3 hd =>
    split at h
    · injection h with h
      subst h
      have hlen : (c3 :: rest3).length ≤ rest.length := by
        rw [← hd]
        exact le_trans (List.dropWhile_sublist _).length_le (List.dropWhile_sublist _).length_le
      simpa using hlen
    · simp at h
  next hd => simp at h

theorem matchAnsi_length {l r : List Char} (h : matchAnsi l = some r) :
    r.length + 3 ≤ l.length := by
  match l with
  | [] => simp [matchAnsi] at h
  | [c] => simp [matchAnsi] at h
  | c1 :: c2 :: rest =>
    rw [matchAnsi] at h
    split at h
    · have := matchTail_length h
      simp only [List.length_cons]
      omega
    · simp at h

/-- A successful match consumes a suffix of the scanned list. -/
theorem matchTail_sublist {rest r : List Char} (h : matchTail rest = some r) :
    List.Sublist r rest := by
  unfold matchTail at h
  split at h
  next c3 rest3 hd =>
    split at h
    · injection h with h
      subst h
      have h1 : List.Sublist rest3 (c3 :: rest3) := List.sublist_cons_self c3 rest3
      have h2 : List.Sublist (c3 :: rest3) rest := by
        rw [← hd]
        exact ((List.dropWhile_sublist _).trans (List.dropWhile_sublist _))
      exact h1.trans h2
    · simp at h
  next hd => simp at h

theorem matchAnsi_sublist {l r : List Char} (h : matchAnsi l = some r) :
    List.Sublist r l := by
  match l with
  | [] => simp [matchAnsi] at h
  | [c] => simp [matchAnsi] at h
  | c1 :: c2 :: rest =>
    rw [matchAnsi] at h
    split at h
    · exact ((matchTail_sublist h).trans (List.sublist_cons_self c2 rest)).trans
        (List.sublist_cons_self c1 (c2 :: rest))
    · simp at h

/-! ### The sanitizer: unfolding equations and structural facts -/

theorem stripAux_congr : ∀ (f1 f2 : Nat) (l : List Char), l.length ≤ f1 → l.length ≤ f2 →
    stripAux f1 l = stripAux f2 l := by
  intro f1
  induction f1 with
  | zero =>
    intro f2 l h1 h2
    have hl : l = [] := List.length_eq_zero.mp (Nat.le_zero.mp h1)
    subst hl
    cases f2 <;> simp [stripAux]
  | succ f1 ih =>
    intro f2 l h1 h2
    rcases l with _ | ⟨c, cs⟩
    · cases f2 <;> simp [stripAux]
    · rcases f2 with _ | f2
      · simp at h2
      · rw [stripAux, stripAux]
        rcases hm : matchAnsi (c :: cs) with _ | r
        · have hcs : cs.length ≤ f1 := by simp at h1; omega
          have hcs2 : cs.length ≤ f2 := by simp at h2; omega
          exact congrArg (List.cons c) (ih f2 cs hcs hcs2)
        · have hr := matchAnsi_length hm
          have hr1 : r.length ≤ f1 := by simp at h1; simp at hr; omega
          have hr2 : r.length ≤ f2 := by simp at h2; simp at hr; omega
          exact ih f2 r hr1 hr2

theorem stripAnsiCodes_nil : stripAnsiCodes [] = [] := rfl

theorem stripAnsiCodes_match {c : Char} {cs r : List Char}
    (h : matchAnsi (c :: cs) = some r) :
    stripAnsiCodes (c :: cs) = stripAnsiCodes r := by
  have hr := matchAnsi_length h
  unfold stripAnsiCodes
  rw [show (c :: cs).length = cs.length + 1 from rfl, stripAux, h]
  show stripAux cs.length r = stripAux r.length r
  exact stripAux_congr cs.length r.length r (by simp at hr; omega) le_rfl

theorem stripAnsiCodes_nomatch {c : Char} {cs : List Char}
    (h : matchAnsi (c :: cs) = none) :
    stripAnsiCodes (c :: cs) = c :: stripAnsiCodes cs := by
  unfold stripAnsiCodes
  rw [show (c :: cs).length = cs.length + 1 from rfl, stripAux, h]

/-- The sanitizer only deletes characters: its output is a sublist
(an order-preserving subsequence) of its input. -/
theorem stripAux_sublist : ∀ (fuel : Nat) (l : List Char),
    List.Sublist (stripAux fuel l) l := by
  intro fuel
  induction fuel with
  | zero => intro l; cases l <;> exact List.Sublist.refl _
  | succ fuel ih =>
    intro l
    match l with
    | [] => exact List.Sublist.refl _
    | c :: cs =>
      rw [stripAux]
      rcases hm : matchAnsi (c :: cs) with _ | r
      · exact (ih cs).cons₂ c
      · exact (ih r).trans (matchAnsi_sublist hm)

theorem stripAnsiCodes_sublist (l : List Char) :
    List.Sublist (stripAnsiCodes l) l :=
  stripAux_sublist l.length l

theorem stripAnsiCodes_length_le (l : List Char) :
    (stripAnsiCodes l).length ≤ l.length :=
  (stripAnsiCodes_sublist l).length_le

/-! ### Escape-free text is a fixed point -/

theorem strip_eq_self_of_escape_free : ∀ {l : List Char}, containsAnsi l = false →
    stripAnsiCodes l = l := by
  intro l
  induction l with
  | nil => intro _; rfl
  | cons c cs ih =>
    intro h
    rw [containsAnsi, Bool.or_eq_false_iff] at h
    rcases hm : matchAnsi (c :: cs) with _ | r
    · rw [stripAnsiCodes_nomatch hm, ih h.2]
    · rw [hm] at h
      simp at h

theorem strip_length_lt_of_contains : ∀ {l : List Char}, containsAnsi l = true →
    (stripAnsiCodes l).length < l.length := by
  intro l
  induction l with
  | nil => intro h; simp [containsAnsi] at h
  | cons c cs ih =>
    intro h
    rcases hm : matchAnsi (c :: cs) with _ | r
    · rw [containsAnsi, hm, Bool.or_eq_true_iff] at h
      have hcs : containsAnsi cs = true := by simpa using h
      rw [stripAnsiCodes_nomatch hm]
      simpa using ih hcs
    · rw [stripAnsiCodes_match hm]
      have h1 := stripAnsiCodes_length_le r
      have h2 := matchAnsi_length hm
      omega

/-! ### Disjointness of the three character classes -/

theorem escChar_not_param : isParamByte escChar = false := by decide

theorem escChar_not_inter : isIntermediateByte escChar = false := by decide

theorem escChar_not_final : isFinalByte escChar = false := by decide

theorem escChar_ne_bracket : escChar ≠ '[' := by decide

theorem final_not_param {c : Char} (h : isFinalByte c = true) : isParamByte c = false := by
  by_contra hc
  rw [Bool.not_eq_false] at hc
  simp only [isFinalByte, Bool.and_eq_true, decide_eq_true_eq] at h
  simp only [isParamByte, Bool.and_eq_true, decide_eq_true_eq] at hc
  omega

theorem final_not_inter {c : Char} (h : isFinalByte c = true) : isIntermediateByte c = false := by
  by_contra hc
  rw [Bool.not_eq_false] at hc
  simp only [isFinalByte, Bool.and_eq_true, decide_eq_true_eq] at h
  simp only [isIntermediateByte, Bool.and_eq_true, decide_eq_true_eq] at hc
  omega

theorem inter_not_param {c : Char} (h : isIntermediateByte c = true) : isParamByte c = false := by
  by_contra hc
  rw [Bool.not_eq_false] at hc
  simp only [isIntermediateByte, Bool.and_eq_true, decide_eq_true_eq] at h
  simp only [isParamByte, Bool.and_eq_true, decide_eq_true_eq] at hc
  omega

/-! ### dropWhile over an append -/

theorem dropWhile_append_all {p : Char → Bool} {xs : List Char} (ys : List Char)
    (h : xs.all p = true) : (xs ++ ys).dropWhile p = ys.dropWhile p := by
  induction xs with
  | nil => rfl
  | cons x xs ih =>
    simp only [List.all_cons, Bool.and_eq_true] at h
    rw [List.cons_append, List.dropWhile_cons, if_pos h.1]
    exact ih h.2

theorem dropWhile_append_stuck {p : Char → Bool} {xs : List Char} {a : Char}
    {t : List Char} (ys : List Char) (h : xs.dropWhile p = a :: t) :
    (xs ++ ys).dropWhile p = a :: (t ++ ys) := by
  induction xs with
  | nil => simp at h
  | cons x xs ih =>
    by_cases hx : p x = true
    · rw [List.dropWhile_cons, if_pos hx] at h
      rw [List.cons_append, List.dropWhile_cons, if_pos hx]
      exact ih h
    · rw [List.dropWhile_cons, if_neg hx] at h
      rw [List.cons_append, List.dropWhile_cons, if_neg hx]
      injection h with h1 h2
      subst h1
      subst h2
      rfl

/-! ### A failed match cannot be completed by text that starts with ESC -/

theorem matchTail_append_esc {rest : List Char} (m : List Char)
    (h : matchTail rest = none) : matchTail (rest ++ escChar :: m) = none := by
  unfold matchTail at h ⊢
  rcases hd1 : rest.dropWhile isParamByte with _ | ⟨a, t⟩
  · have hall : rest.all isParamByte = true := by
      rw [List.all_eq_true]
      intro x hx
      exact List.dropWhile_eq_nil_iff.mp hd1 x hx
    rw [dropWhile_append_all (escChar :: m) hall,
      List.dropWhile_cons, if_neg (by simp [escChar_not_param]),
      List.dropWhile_cons, if_neg (by simp [escChar_not_inter])]
    show (if isFinalByte escChar then some m else none) = none
    simp [escChar_not_final]
  · rw [hd1] at h
    rw [dropWhile_append_stuck (escChar :: m) hd1]
    rcases hd2 : (a :: t).dropWhile isIntermediateByte with _ | ⟨c3, r3⟩
    · have hall2 : (a :: t).all isIntermediateByte = true := by
        rw [List.all_eq_true]
        intro x hx
        exact List.dropWhile_eq_nil_iff.mp hd2 x hx
      rw [show a :: (t ++ escChar :: m) = (a :: t) ++ escChar :: m from rfl,
        dropWhile_append_all (escChar :: m) hall2,
        List.dropWhile_cons, if_neg (by simp [escChar_not_inter])]
      show (if isFinalByte escChar then some m else none) = none
      simp [escChar_not_final]
    · rw [hd2] at h
      have h2 : (if isFinalByte c3 then some r3 else (none : Option (List Char))) = none := h
      have hc3 : isFinalByte c3 = false := by
        by_cases hcc : isFinalByte c3 = true
        · rw [if_pos hcc] at h2
          exact absurd h2 (by simp)
        · exact Bool.eq_false_iff.mpr hcc
      rw [show a :: (t ++ escChar :: m) = (a :: t) ++ escChar :: m from rfl,
        dropWhile_append_stuck (escChar :: m) hd2]
      show (if isFinalByte c3 then some (r3 ++ escChar :: m) else none) = none
      simp [hc3]

theorem matchAnsi_append_esc {l : List Char} (m : List Char)
    (hne : l ≠ []) (h : matchAnsi l = none) :
    matchAnsi (l ++ escChar :: m) = none := by
  match l with
  | [] => exact absurd rfl hne
  | [c1] =>
    show matchAnsi (c1 :: escChar :: m) = none
    rw [matchAnsi, if_neg]
    intro hcc
    exact escChar_ne_bracket hcc.2
  | c1 :: c2 :: rest =>
    rw [matchAnsi] at h
    show matchAnsi (c1 :: c2 :: (rest ++ escChar :: m)) = none
    rw [matchAnsi]
    by_cases hij : c1 = escChar ∧ c2 = '['
    · rw [if_pos hij] at h
      rw [if_pos hij]
      exact matchTail_append_esc m h
    · rw [if_neg hij]

/-! ### A well-formed sequence at the front matches exactly itself -/

theorem matchAnsi_wellformed {ps is : List Char} {f : Char} (s : List Char)
    (hps : ps.all isParamByte = true) (his : is.all isIntermediateByte = true)
    (hf : isFinalByte f = true) :
    matchAnsi (escChar :: ('[' :: (ps ++ is ++ [f]) ++ s)) = some s := by
  show matchAnsi (escChar :: '[' :: ((ps ++ is ++ [f]) ++ s)) = some s
  rw [matchAnsi, if_pos ⟨rfl, rfl⟩]
  unfold matchTail
  have hrest : (ps ++ is ++ [f]) ++ s = ps ++ (is ++ f :: s) := by
    simp [List.append_assoc]
  rw [hrest, dropWhile_append_all (is ++ f :: s) hps]
  have hnp : (is ++ f :: s).dropWhile isParamByte = is ++ f :: s := by
    rcases is with _ | ⟨i, it⟩
    · rw [List.nil_append, List.dropWhile_cons, if_neg (by simp [final_not_param hf])]
    · simp only [List.all_cons, Bool.and_eq_true] at his
      rw [List.cons_append, List.dropWhile_cons, if_neg (by simp [inter_not_param his.1])]
  rw [hnp, dropWhile_append_all (f :: s) his,
    List.dropWhile_cons, if_neg (by simp [final_not_inter hf])]
  show (if isFinalByte f then some s else none) = some s
  rw [if_pos hf]

/-! ### Removing a single well-formed sequence between escape-free text -/

theorem strip_prefix_escape_free : ∀ (p m : List Char), containsAnsi p = false →
    stripAnsiCodes (p ++ escChar :: m) = p ++ stripAnsiCodes (escChar :: m) := by
  intro p
  induction p with
  | nil => intro m _; rfl
  | cons c p' ih =>
    intro m hp
    rw [containsAnsi, Bool.or_eq_false_iff] at hp
    rcases hm : matchAnsi (c :: p') with _ | r
    · have hnone : matchAnsi (c :: (p' ++ escChar :: m)) = none :=
        matchAnsi_append_esc m (List.cons_ne_nil c p') hm
      rw [show (c :: p') ++ escChar :: m = c :: (p' ++ escChar :: m) from rfl,
        stripAnsiCodes_nomatch hnone, ih m hp.2]
      rfl
    · rw [hm] at hp
      simp at hp

theorem strip_decomposition {p s ps is : List Char} {f : Char}
    (hp : containsAnsi p = false) (hs : containsAnsi s = false)
    (hps : ps.all isParamByte = true) (his : is.all isIntermediateByte = true)
    (hf : isFinalByte f = true) :
    stripAnsiCodes (p ++ (escChar :: '[' :: (ps ++ is ++ [f])) ++ s) = p ++ s := by
  have hseq : p ++ (escChar :: '[' :: (ps ++ is ++ [f])) ++ s
      = p ++ escChar :: ('[' :: (ps ++ is ++ [f]) ++ s) := by
    simp [List.append_assoc]
  rw [hseq, strip_prefix_escape_free p _ hp,
    stripAnsiCodes_match (matchAnsi_wellformed s hps his hf),
    strip_eq_self_of_escape_free hs]

/-! ### Iterating the sanitizer reaches an escape-free fixed point -/

theorem stripFuel_escape_free : ∀ (n : Nat) (l : List Char), l.length ≤ n →
    containsAnsi (stripFuel n l) = false := by
  intro n
  induction n with
  | zero =>
    intro l h
    have hl : l = [] := List.length_eq_zero.mp (Nat.le_zero.mp h)
    subst hl
    rfl
  | succ n ih =>
    intro l h
    rcases hc : containsAnsi l with _ | _
    · rw [stripFuel, if_neg (by simp [hc])]
      exact hc
    · rw [stripFuel, if_pos (by simp [hc])]
      have hlt := strip_length_lt_of_contains hc
      exact ih (stripAnsiCodes l) (by omega)

/-! ### The claims -/

/-- Claim C1: for every text containing a well-formed ANSI escape sequence
(the escape character, then a literal open bracket, then zero or more
parameter bytes, then zero or more intermediate bytes, then exactly one
final byte), the sanitizer `strip_ansi_codes` removes exactly that sequence
and returns the surrounding (escape-free) text unchanged, character for
character. -/
theorem strip_removes_wellformed_sequence (p ps is s : List Char) (f : Char)
    (hp : containsAnsi p = false) (hs : containsAnsi s = false)
    (hps : ps.all isParamByte = true) (his : is.all isIntermediateByte = true)
    (hf : isFinalByte f = true) :
    stripAnsiCodes (p ++ (escChar :: '[' :: (ps ++ is ++ [f])) ++ s) = p ++ s :=
  strip_decomposition hp hs hps his hf

/-- Witness for C1: stripping `He ESC[31m llo` gives `Hello`. -/
theorem strip_removes_wellformed_sequence_witness :
    stripAnsiCodes (['H', 'e'] ++ (escChar :: '[' :: (['3', '1'] ++ [] ++ ['m']))
        ++ ['l', 'l', 'o'])
      = ['H', 'e'] ++ ['l', 'l', 'o'] :=
  strip_removes_wellformed_sequence ['H', 'e'] ['3', '1'] [] ['l', 'l', 'o'] 'm'
    (by decide) (by decide) (by decide) (by decide) (by decide)

/-- Counterexample for C2: on `juxtaposedInput` (an escape-free fragment
`ESC[31` followed by the well-formed `ESC[31m` and a final `m`), the single
pass of the sanitizer removes the inner match and returns `ESC[31m`, which is
itself a complete well-formed escape sequence; so the output is not free of
substrings matching the escape-sequence shape. -/
theorem strip_output_can_contain_escape_shape :
    strip_ansi_codes juxtaposedInput = "\x1B[31m"
      ∧ containsAnsi (strip_ansi_codes juxtaposedInput).data = true
      ∧ (strip_ansi_codes juxtaposedInput).data
          = escChar :: '[' :: (['3', '1'] ++ ([] : List Char) ++ ['m'])
      ∧ ['3', '1'].all isParamByte = true
      ∧ isFinalByte 'm' = true :=
  ⟨rfl, rfl, rfl, rfl, rfl⟩

/-- Claim C2 (amended): a single pass of `strip_ansi_codes` removes every
leftmost non-overlapping match and passes all other characters through
unchanged, but removal can juxtapose remnants into a new escape-shaped
substring; iterating the sanitizer, at most length-of-input times, always
reaches a text containing no substring of the escape-sequence shape. -/
theorem strip_iterated_escape_free (l : List Char) :
    containsAnsi (stripFuel l.length l) = false :=
  stripFuel_escape_free l.length l le_rfl

/-- Claim C3: on any input containing no ANSI escape sequence the sanitizer
is the identity. -/
theorem strip_identity_on_escape_free (s : String)
    (h : containsAnsi s.data = false) : strip_ansi_codes s = s := by
  unfold strip_ansi_codes
  rw [strip_eq_self_of_escape_free h]

/-- Witness for C3 at an escape-free text. -/
theorem strip_identity_on_escape_free_witness :
    strip_ansi_codes "Hello World" = "Hello World" :=
  strip_identity_on_escape_free "Hello World" (by decide)

/-- Claim C4: the concrete example of the specification. -/
theorem strip_concrete_example :
    strip_ansi_codes "\x1B[31mHello\x1B[0m World" = "Hello World" := rfl

/-- Claim C5: for every agent call and every starting state, the bridge
restores the original standard-output stream on every exit path, whether the
call returns normally or raises. -/
theorem bridge_restores_stdout (agent : AgentProc) (prompt : String)
    (st : SysState) :
    ((get_agent_response agent prompt st).1).stdout = st.stdout := by
  cases hres : (agent prompt { st with stdout := st.nextId, nextId := st.nextId + 1 }).2 <;>
    simp [get_agent_response, hres]

/-- Claim C6: whenever the bridge raises with message `m`, the search
dispatch handler absorbs the exception and answers HTTP success with the
page embedding the text `An error occurred: ` followed by `m`; nothing
propagates to the transport layer. -/
theorem search_absorbs_errors (agent : AgentProc) (query : String)
    (st : SysState) (m : String)
    (h : (get_agent_response agent query st).2 = Except.error m) :
    (search agent query st).2.status = 200
      ∧ (search agent query st).2.body
          = htmlPre ++ ("An error occurred: " ++ m) ++ htmlSuf := by
  constructor
  · simp [search]
  · simp [search, h, html_content]

/-- Witness for C6: the fault-injecting stub that raises `timeout`. -/
theorem search_absorbs_errors_witness :
    (search stubAgentRaises "q" initState).2.status = 200
      ∧ (search stubAgentRaises "q" initState).2.body
          = htmlPre ++ ("An error occurred: " ++ "timeout") ++ htmlSuf :=
  search_absorbs_errors stubAgentRaises "q" initState "timeout" rfl

/-- Claim C7: whenever the bridge succeeds with sanitized text that is empty
or consists only of whitespace, the search dispatch handler returns the fixed
fallback message instead of the captured text. -/
theorem search_fallback_on_whitespace (agent : AgentProc) (query : String)
    (st : SysState) (txt : String)
    (h1 : (get_agent_response agent query st).2 = Except.ok txt)
    (h2 : (pyStrip txt).isEmpty = true) :
    (search agent query st).2.status = 200
      ∧ (search agent query st).2.body = htmlPre ++ fallbackMessage ++ htmlSuf := by
  constructor
  · simp [search]
  · simp [search, h1, h2, html_content]

/-- Witness for C7: a stub agent operation that writes only whitespace. -/
theorem search_fallback_on_whitespace_witness :
    (search stubAgentWhitespace "q" initState).2.status = 200
      ∧ (search stubAgentWhitespace "q" initState).2.body
          = htmlPre ++ fallbackMessage ++ htmlSuf :=
  search_fallback_on_whitespace stubAgentWhitespace "q" initState "   \n" rfl rfl

/-- Claim C8: for every agent operation that returns normally, the bridge
returns exactly the sanitized text that was written to the fresh capture
buffer during the call, and when that text is not whitespace-only the
dispatch path embeds it verbatim in the response body. -/
theorem bridge_returns_captured_text (agent : AgentProc) (prompt : String)
    (st st2 : SysState)
    (h : agent prompt { st with stdout := st.nextId, nextId := st.nextId + 1 }
        = (st2, Except.ok ())) :
    (get_agent_response agent prompt st).2
        = Except.ok (strip_ansi_codes (getvalue st.nextId st2))
      ∧ ((pyStrip (strip_ansi_codes (getvalue st.nextId st2))).isEmpty = false →
          (search agent prompt st).2.body
            = htmlPre ++ strip_ansi_codes (getvalue st.nextId st2) ++ htmlSuf) := by
  have hg : (get_agent_response agent prompt st).2
      = Except.ok (strip_ansi_codes (getvalue st.nextId st2)) := by
    simp [get_agent_response, h, getvalue_set_stdout]
  refine ⟨hg, fun hne => ?_⟩
  simp [search, hg, hne, html_content]

/-- Witness for C8: a stub agent operation that writes `Result: 42`. -/
theorem bridge_returns_captured_text_witness :
    (get_agent_response stubAgentResult42 "q" initState).2 = Except.ok "Result: 42"
      ∧ (search stubAgentResult42 "q" initState).2.body
          = htmlPre ++ "Result: 42" ++ htmlSuf := by
  have h := bridge_returns_captured_text stubAgentResult42 "q" initState
    (writeStdout "Result: 42"
      { initState with stdout := initState.nextId, nextId := initState.nextId + 1 }) rfl
  exact ⟨h.1, h.2 (by decide)⟩

/-- Claim C9: the sanitizer performs no escaping or encoding of
HTML-significant characters: every occurrence of the less-than sign and the
ampersand outside the removed escape sequence survives into the output
(their counts over the surrounding text are preserved exactly), and the
dispatch handler interpolates the result into the HTML body verbatim,
applying no escaping to it. -/
theorem no_html_escaping (p ps is s : List Char) (f : Char) (r : String)
    (hp : containsAnsi p = false) (hs : containsAnsi s = false)
    (hps : ps.all isParamByte = true) (his : is.all isIntermediateByte = true)
    (hf : isFinalByte f = true) :
    ((stripAnsiCodes (p ++ (escChar :: '[' :: (ps ++ is ++ [f])) ++ s)).count '<'
        = p.count '<' + s.count '<')
      ∧ ((stripAnsiCodes (p ++ (escChar :: '[' :: (ps ++ is ++ [f])) ++ s)).count '&'
        = p.count '&' + s.count '&')
      ∧ html_content r = htmlPre ++ r ++ htmlSuf := by
  rw [strip_decomposition hp hs hps his hf]
  exact ⟨List.count_append '<' p s, List.count_append '&' p s, rfl⟩

/-- Witness for C9 with HTML-significant characters around the sequence. -/
theorem no_html_escaping_witness :
    ((stripAnsiCodes (['a', '<', 'b'] ++ (escChar :: '[' :: (['3', '1'] ++ [] ++ ['m']))
          ++ ['&', 'c'])).count '<'
        = ['a', '<', 'b'].count '<' + ['&', 'c'].count '<')
      ∧ ((stripAnsiCodes (['a', '<', 'b'] ++ (escChar :: '[' :: (['3', '1'] ++ [] ++ ['m']))
          ++ ['&', 'c'])).count '&'
        = ['a', '<', 'b'].count '&' + ['&', 'c'].count '&')
      ∧ html_content "x<y&z" = htmlPre ++ "x<y&z" ++ htmlSuf :=
  no_html_escaping ['a', '<', 'b'] ['3', '1'] [] ['&', 'c'] 'm' "x<y&z"
    (by decide) (by decide) (by decide) (by decide) (by decide)

/-- Claim C10: for every input text the output of `strip_ansi_codes` is a
subsequence of the input (the sanitizer only deletes characters, never
inserts or reorders them), and hence its length is at most the input's
length. -/
theorem strip_is_subsequence (s : String) :
    List.Sublist (strip_ansi_codes s).data s.data
      ∧ (strip_ansi_codes s).length ≤ s.length :=
  ⟨stripAnsiCodes_sublist s.data, stripAnsiCodes_length_le s.data⟩

end FinancialAgent
